import Mathlib

/-!
Shallow embedding of `s2e_env/commands/code_coverage/lcov.py`
(the `LineCoverage` command): the address-range aggregator
`_get_addr_coverage`, the lcov serializer `_save_coverage_info`, and the
`handle` pipeline, together with theorems about them.

Python dictionaries are modelled as insertion-ordered association lists
(`List (Nat × Nat)`): `dictGet` is `d.get(k, 0)`, `dictSet` is `d[k] = v`
(update the first binding in place, append fresh keys at the end).
The filesystem seen by the serializer is a parameter: `FS.realpath`
models `os.path.realpath` and `FS.isFile` models `os.path.isfile`.
-/

namespace Lcov

/-- One translation-block record `(start_addr, end_addr, hit_count)` as
parsed from a trace file by `parse_tb_file`. -/
structure AddressRange where
  start_addr : Nat
  end_addr : Nat
  hit_count : Nat
  deriving DecidableEq, Repr

/-- The `addr_counts` dictionary: insertion-ordered list of
(address, count) bindings. -/
abbrev AddrDict := List (Nat × Nat)

/-- Python `d.get(k, 0)`: value of the first binding of `k`, or `0`. -/
def dictGet : AddrDict → Nat → Nat
  | [], _ => 0
  | p :: d, k => if p.1 = k then p.2 else dictGet d k

/-- Python `d[k] = v`: replace the first binding of `k`, or append `(k, v)`. -/
def dictSet : AddrDict → Nat → Nat → AddrDict
  | [], k, v => [(k, v)]
  | p :: d, k, v => if p.1 = k then (k, v) :: d else p :: dictSet d k v

/-- Python `xrange(s, e)`: the addresses `s, s+1, ..., e-1` (empty when `e ≤ s`). -/
def rangeAddrs (s e : Nat) : List Nat :=
  (List.range (e - s)).map (fun i => s + i)

/-- The update `addr_counts[addr] = addr_counts.get(addr, 0) + 1`, the body of the
inner loop of `_get_addr_coverage`. -/
def bumpAddr (d : AddrDict) (a : Nat) : AddrDict :=
  dictSet d a (dictGet d a + 1)

/-- The `for addr in xrange(start_addr, end_addr)` loop for one record.
Note the source discards the record's `hit_count` (bound to `_`). -/
def addRange (d : AddrDict) (r : AddressRange) : AddrDict :=
  (rangeAddrs r.start_addr r.end_addr).foldl bumpAddr d

/-- The method `_get_addr_coverage`: fold all (already parsed) trace files into one
`addr_counts` dictionary, skipping files whose parsed data is empty. -/
def get_addr_coverage (tfs : List (List AddressRange)) : AddrDict :=
  tfs.foldl (fun d data => if data.isEmpty then d else data.foldl addRange d) []

/-- Whether a record's half-open interval covers address `a`
(spec-side predicate used to state the aggregation theorems). -/
def covers (r : AddressRange) (a : Nat) : Bool :=
  decide (r.start_addr ≤ a ∧ a < r.end_addr)

/-- Forget the `hit_count` field of a record. -/
def stripHit (r : AddressRange) : Nat × Nat :=
  (r.start_addr, r.end_addr)

/-- Like `addRange` but on a record already stripped to its `(start, end)` pair;
used to show the aggregator never reads `hit_count`. -/
def addPair (d : AddrDict) (p : Nat × Nat) : AddrDict :=
  (rangeAddrs p.1 p.2).foldl bumpAddr d

/-- The aggregator rebuilt over stripped `(start, end)` pairs. -/
def aggPairs (tps : List (List (Nat × Nat))) : AddrDict :=
  tps.foldl (fun d data => if data.isEmpty then d else data.foldl addPair d) []

/-- The filesystem the serializer consults: `os.path.realpath` and
`os.path.isfile`. -/
structure FS where
  realpath : String → String
  isFile : String → Bool

/-- The `file_line_info` dictionary: insertion-ordered list of
(source-file path, insertion-ordered list of (line, count)) entries. -/
abbrev LineCountTable := List (String × List (Nat × Nat))

/-- The Python test `'\\' in src_file`: whether the path contains a
back-slash character (stated on the string's character list). -/
def hasBackslash (s : String) : Bool :=
  s.data.contains '\\'

/-- The body of the `for line, count in file_line_info[src_file].items()`
loop: accumulated text, `num_non_zero_lines` and `num_instrumented_lines`. -/
def daStep (acc : String × Nat × Nat) (p : Nat × Nat) : String × Nat × Nat :=
  (acc.1 ++ "DA:" ++ toString p.1 ++ "," ++ toString p.2 ++ "\n",
    acc.2.1 + (if p.2 ≠ 0 then 1 else 0),
    acc.2.2 + 1)

/-- The text written for one (non-skipped) source file: the `SF:` line,
the `DA:` lines, `LH:`, `LF:` and `end_of_record`. -/
def emitRecord (path : String) (li : List (Nat × Nat)) : String :=
  let r := li.foldl daStep ("SF:" ++ path ++ "\n", 0, 0)
  r.1 ++ "LH:" ++ toString r.2.1 ++ "\n" ++ "LF:" ++ toString r.2.2 ++ "\n"
    ++ "end_of_record" ++ "\n"

/-- Just the `SF:` line followed by the `DA:` lines of a record
(spec-side helper used to state the `LH:`/`LF:` theorem). -/
def sfDaText (path : String) (li : List (Nat × Nat)) : String :=
  li.foldl (fun acc p => acc ++ "DA:" ++ toString p.1 ++ "," ++ toString p.2 ++ "\n")
    ("SF:" ++ path ++ "\n")

/-- Path normalisation and the missing-file check for one table entry:
`some text` when a record is written, `none` when the file is skipped.
Windows-style paths (containing a back-slash) are written untouched and
never checked; other paths go through `realpath` and are skipped (with a
warning in the source) when `os.path.isfile` fails on the result. -/
def fileRecord (fs : FS) (src_file : String) (li : List (Nat × Nat)) : Option String :=
  if hasBackslash src_file then
    some (emitRecord src_file li)
  else
    let abs_src_path := fs.realpath src_file
    if fs.isFile abs_src_path then some (emitRecord abs_src_path li) else none

/-- One iteration of the `for src_file in file_line_info.keys()` loop. -/
def saveStep (fs : FS) (acc : String) (e : String × List (Nat × Nat)) : String :=
  match fileRecord fs e.1 e.2 with
  | some r => acc ++ r
  | none => acc

/-- The method `_save_coverage_info`: the full text written to `coverage.info`,
starting with the `TN:` header. -/
def save_coverage_info (fs : FS) (fli : LineCountTable) : String :=
  fli.foldl (saveStep fs) ("TN:" ++ "\n")

/-- The `handle` pipeline: aggregate the trace files; if the resulting
`addr_counts` dictionary is empty (falsy), raise
`CommandError('No translation block information found')` before any
report is produced; otherwise resolve line info (the external
collaborator `line_info.get_file_line_coverage`, passed in as `resolve`)
and write the report. -/
def handle (tfs : List (List AddressRange)) (resolve : AddrDict → LineCountTable)
    (fs : FS) : Except String String :=
  let addr_counts := get_addr_coverage tfs
  if addr_counts.isEmpty then
    Except.error "No translation block information found"
  else
    Except.ok (save_coverage_info fs (resolve addr_counts))

/-- A sample filesystem on which no file exists. -/
def fsNone : FS :=
  { realpath := fun s => s, isFile := fun _ => false }

/-- A sample filesystem on which every file exists and paths are already
real. -/
def fsAll : FS :=
  { realpath := fun s => s, isFile := fun _ => true }

/-- A sample resolver returning an empty line table. -/
def resolveEmpty : AddrDict → LineCountTable :=
  fun _ => []

@[simp]
theorem dictGet_nil (k : Nat) : dictGet [] k = 0 := rfl

theorem dictGet_dictSet_self (d : AddrDict) (k v : Nat) :
    dictGet (dictSet d k v) k = v := by
  induction d with
  | nil => simp [dictGet, dictSet]
  | cons p d ih =>
    by_cases h : p.1 = k <;> simp [dictGet, dictSet, h, ih]

theorem dictGet_dictSet_ne (d : AddrDict) (k v k' : Nat) (h : k' ≠ k) :
    dictGet (dictSet d k v) k' = dictGet d k' := by
  have hk : k ≠ k' := fun hk => h hk.symm
  induction d with
  | nil => simp [dictGet, dictSet, hk]
  | cons p d ih =>
    by_cases hp : p.1 = k
    · subst hp
      simp [dictGet, dictSet, hk]
    · simp only [dictSet, if_neg hp, dictGet]
      by_cases hp' : p.1 = k' <;> simp [hp', ih]

theorem dictGet_foldl_bumpAddr (as : List Nat) (d : AddrDict) (x : Nat) :
    dictGet (as.foldl bumpAddr d) x = dictGet d x + as.count x := by
  induction as generalizing d with
  | nil => simp
  | cons a as ih =>
    simp only [List.foldl_cons, ih, List.count_cons]
    by_cases h : x = a
    · subst h
      simp [bumpAddr, dictGet_dictSet_self]
      omega
    · have hb : (a == x) = false := by
        simp [beq_iff_eq]
        exact fun hax => h hax.symm
      simp [bumpAddr, dictGet_dictSet_ne d a _ x h, hb]

theorem count_range_map (n s x : Nat) :
    ((List.range n).map (fun i => s + i)).count x
      = if s ≤ x ∧ x < s + n then 1 else 0 := by
  induction n with
  | zero =>
    simp only [List.range_zero, List.map_nil, List.count_nil]
    rw [if_neg (by omega : ¬(s ≤ x ∧ x < s + 0))]
  | succ n ih =>
    rw [List.range_succ, List.map_append, List.count_append, ih]
    simp only [List.map_cons, List.map_nil, List.count_cons, List.count_nil,
      beq_iff_eq]
    split_ifs <;> omega

theorem count_rangeAddrs (s e x : Nat) :
    (rangeAddrs s e).count x = if s ≤ x ∧ x < e then 1 else 0 := by
  unfold rangeAddrs
  rw [count_range_map]
  have heq : (s ≤ x ∧ x < s + (e - s)) ↔ (s ≤ x ∧ x < e) := by omega
  simp only [heq]

theorem dictGet_addRange (d : AddrDict) (r : AddressRange) (a : Nat) :
    dictGet (addRange d r) a
      = dictGet d a + (if r.start_addr ≤ a ∧ a < r.end_addr then 1 else 0) := by
  rw [addRange, dictGet_foldl_bumpAddr, count_rangeAddrs]

theorem dictGet_foldl_addRange (rs : List AddressRange) (d : AddrDict) (a : Nat) :
    dictGet (rs.foldl addRange d) a = dictGet d a + rs.countP (fun r => covers r a) := by
  induction rs generalizing d with
  | nil => simp
  | cons r rs ih =>
    rw [List.foldl_cons, ih, dictGet_addRange, List.countP_cons]
    simp only [covers, decide_eq_true_eq]
    split_ifs <;> omega

theorem dictGet_get_addr_coverage (tfs : List (List AddressRange)) (a : Nat) :
    dictGet (get_addr_coverage tfs) a = tfs.flatten.countP (fun r => covers r a) := by
  have aux : ∀ (l : List (List AddressRange)) (d : AddrDict),
      dictGet (l.foldl (fun d data => if data.isEmpty then d else data.foldl addRange d) d) a
        = dictGet d a + l.flatten.countP (fun r => covers r a) := by
    intro l
    induction l with
    | nil => simp
    | cons data l ih =>
      intro d
      rw [List.foldl_cons]
      by_cases h : data.isEmpty = true
      · have hd : data = [] := List.isEmpty_iff.mp h
        subst hd
        rw [if_pos h, ih]
        have hfl : (([] : List AddressRange) :: l).flatten = l.flatten := rfl
        rw [hfl]
      · rw [if_neg h, ih, dictGet_foldl_addRange]
        have hfl : (data :: l).flatten = data ++ l.flatten := rfl
        rw [hfl, List.countP_append]
        omega
  have h := aux tfs []
  simp only [dictGet_nil, Nat.zero_add] at h
  exact h

theorem addRange_eq_addPair (d : AddrDict) (r : AddressRange) :
    addRange d r = addPair d (stripHit r) := rfl

theorem foldl_addRange_eq_foldl_addPair (rs : List AddressRange) (d : AddrDict) :
    rs.foldl addRange d = (rs.map stripHit).foldl addPair d := by
  induction rs generalizing d with
  | nil => rfl
  | cons r rs ih =>
    rw [List.map_cons, List.foldl_cons, List.foldl_cons, addRange_eq_addPair, ih]

theorem get_addr_coverage_eq_aggPairs (tfs : List (List AddressRange)) :
    get_addr_coverage tfs = aggPairs (tfs.map (List.map stripHit)) := by
  have aux : ∀ (l : List (List AddressRange)) (d : AddrDict),
      l.foldl (fun d data => if data.isEmpty then d else data.foldl addRange d) d
        = (l.map (List.map stripHit)).foldl
            (fun d data => if data.isEmpty then d else data.foldl addPair d) d := by
    intro l
    induction l with
    | nil => intro d; rfl
    | cons data l ih =>
      intro d
      rw [List.map_cons, List.foldl_cons, List.foldl_cons, ih]
      congr 1
      cases data with
      | nil => rfl
      | cons x xs => exact foldl_addRange_eq_foldl_addPair (x :: xs) d
  exact aux tfs []

theorem foldl_daStep (li : List (Nat × Nat)) (t : String) (h k : Nat) :
    li.foldl daStep (t, h, k)
      = (li.foldl (fun acc p => acc ++ "DA:" ++ toString p.1 ++ "," ++ toString p.2 ++ "\n") t,
          h + li.countP (fun p => p.2 != 0),
          k + li.length) := by
  induction li generalizing t h k with
  | nil => simp
  | cons p li ih =>
    rw [List.foldl_cons, List.foldl_cons]
    show List.foldl daStep
        (t ++ "DA:" ++ toString p.1 ++ "," ++ toString p.2 ++ "\n",
          h + (if p.2 ≠ 0 then 1 else 0), k + 1) li = _
    rw [ih, List.countP_cons, List.length_cons]
    simp only [Prod.mk.injEq, bne_iff_ne, ne_eq]
    refine ⟨trivial, ?_, ?_⟩
    · split_ifs <;> omega
    · omega

theorem emitRecord_lh_lf_aux (path : String) (li : List (Nat × Nat)) :
    emitRecord path li
      = sfDaText path li
        ++ "LH:" ++ toString (li.countP (fun p => p.2 != 0)) ++ "\n"
        ++ "LF:" ++ toString li.length ++ "\n"
        ++ "end_of_record" ++ "\n" := by
  simp only [emitRecord, foldl_daStep, Nat.zero_add, sfDaText]

theorem foldl_saveStep_skip (fs : FS) (l : LineCountTable) (acc : String)
    (h : ∀ e ∈ l, fileRecord fs e.1 e.2 = none) :
    l.foldl (saveStep fs) acc = acc := by
  induction l generalizing acc with
  | nil => rfl
  | cons e l ih =>
    rw [List.foldl_cons]
    have he : fileRecord fs e.1 e.2 = none := h e (List.mem_cons_self e l)
    have hstep : saveStep fs acc e = acc := by
      unfold saveStep
      rw [he]
    rw [hstep]
    exact ih acc (fun e' he' => h e' (List.mem_cons_of_mem e he'))

/-- C1: the spec requires the aggregated count at an address to be the sum
of the `hit_count`s of the records covering it, and predicts count `5` at
`0x1008` for the records `(0x1000, 0x1010, 2)` and `(0x1008, 0x1020, 3)`.
The code discards `hit_count` (`for start_addr, end_addr, _ in ...`) and
produces `2` there — one per covering record — contradicting its own
docstring ("the number of times they were executed"). -/
theorem c1_hit_counts_not_summed :
    dictGet (get_addr_coverage
        [[⟨0x1000, 0x1010, 2⟩, ⟨0x1008, 0x1020, 3⟩]]) 0x1008 = 2
      ∧ dictGet (get_addr_coverage
        [[⟨0x1000, 0x1010, 2⟩, ⟨0x1008, 0x1020, 3⟩]]) 0x1008 ≠ 5 := by
  decide

/-- C2: `_get_addr_coverage` is insensitive to the `hit_count` field —
trace inputs agreeing on the `(start_addr, end_addr)` pairs (in order)
give identical dictionaries — and each covering record occurrence
contributes exactly `+1` to each address of its half-open interval. -/
theorem get_addr_coverage_hit_count_insensitive
    (tfs₁ tfs₂ : List (List AddressRange))
    (h : tfs₁.map (List.map stripHit) = tfs₂.map (List.map stripHit)) :
    get_addr_coverage tfs₁ = get_addr_coverage tfs₂ ∧
      ∀ a, dictGet (get_addr_coverage tfs₁) a
        = tfs₁.flatten.countP (fun r => covers r a) := by
  constructor
  · rw [get_addr_coverage_eq_aggPairs, get_addr_coverage_eq_aggPairs, h]
  · exact fun a => dictGet_get_addr_coverage tfs₁ a

/-- Witness for C2 at concrete inputs differing only in `hit_count`. -/
theorem get_addr_coverage_hit_count_insensitive_witness :
    get_addr_coverage [[⟨0x1000, 0x1004, 7⟩]]
        = get_addr_coverage [[⟨0x1000, 0x1004, 1⟩]] ∧
      dictGet (get_addr_coverage [[⟨0x1000, 0x1004, 7⟩]]) 0x1001
        = ([[(⟨0x1000, 0x1004, 7⟩ : AddressRange)]] : List (List AddressRange)).flatten.countP
            (fun r => covers r 0x1001) := by
  have h := get_addr_coverage_hit_count_insensitive
    [[⟨0x1000, 0x1004, 7⟩]] [[⟨0x1000, 0x1004, 1⟩]] (by decide)
  exact ⟨h.1, h.2 0x1001⟩

/-- C3: with zero trace files, or with every trace file yielding zero
ranges, the aggregated dictionary is empty and `handle` fails with the
`CommandError` ("No translation block information found") instead of
producing a report. -/
theorem handle_no_coverage_data (tfs : List (List AddressRange))
    (resolve : AddrDict → LineCountTable) (fs : FS)
    (h : tfs = [] ∨ ∀ f ∈ tfs, f = []) :
    get_addr_coverage tfs = [] ∧
      handle tfs resolve fs
        = Except.error "No translation block information found" := by
  have hall : ∀ f ∈ tfs, f = [] := by
    rcases h with h | h
    · subst h; intro f hf; cases hf
    · exact h
  have hempty : get_addr_coverage tfs = [] := by
    have aux : ∀ (l : List (List AddressRange)) (d : AddrDict),
        (∀ f ∈ l, f = []) →
          l.foldl (fun d data => if data.isEmpty then d else data.foldl addRange d) d = d := by
      intro l
      induction l with
      | nil => intro d _; rfl
      | cons data l ih =>
        intro d hl
        have hd : data = [] := hl data (List.mem_cons_self data l)
        subst hd
        rw [List.foldl_cons]
        exact ih d (fun f hf => hl f (List.mem_cons_of_mem [] hf))
    exact aux tfs [] hall
  refine ⟨hempty, ?_⟩
  have hh : handle tfs resolve fs
      = if (get_addr_coverage tfs).isEmpty
        then Except.error "No translation block information found"
        else Except.ok (save_coverage_info fs (resolve (get_addr_coverage tfs))) := rfl
  rw [hh, hempty]
  rfl

/-- Witness for C3 at zero trace files. -/
theorem handle_no_coverage_data_witness :
    get_addr_coverage [] = [] ∧
      handle [] resolveEmpty fsNone
        = Except.error "No translation block information found" :=
  handle_no_coverage_data [] resolveEmpty fsNone (Or.inl rfl)

/-- C4: a record with `start_addr ≤ end_addr` contributes exactly to the
addresses of the half-open interval `[start_addr, end_addr)`: the count
of any address inside it grows, `end_addr` and every address outside are
left unchanged. -/
theorem addRange_half_open (d : AddrDict) (r : AddressRange) (a : Nat)
    (hr : r.start_addr ≤ r.end_addr) :
    dictGet (addRange d r) a
      = dictGet d a + (if r.start_addr ≤ a ∧ a < r.end_addr then 1 else 0) :=
  dictGet_addRange d r a

/-- Witness for C4 at the spec's example range `(0x2000, 0x2004, 1)`:
`0x2003` is covered, `0x2004` is not. -/
theorem addRange_half_open_witness :
    dictGet (addRange [] ⟨0x2000, 0x2004, 1⟩) 0x2003 = 1 ∧
      dictGet (addRange [] ⟨0x2000, 0x2004, 1⟩) 0x2004 = 0 := by
  have h3 := addRange_half_open [] ⟨0x2000, 0x2004, 1⟩ 0x2003 (by decide)
  have h4 := addRange_half_open [] ⟨0x2000, 0x2004, 1⟩ 0x2004 (by decide)
  rw [h3, h4]
  decide

/-- C5: a degenerate record (`start_addr = end_addr`) leaves the
dictionary unchanged, and the (total) aggregation raises no error. -/
theorem addRange_degenerate (d : AddrDict) (r : AddressRange)
    (h : r.start_addr = r.end_addr) : addRange d r = d := by
  unfold addRange rangeAddrs
  rw [h, Nat.sub_self]
  simp

/-- Witness for C5 at a concrete degenerate range. -/
theorem addRange_degenerate_witness :
    addRange [(0x42, 1)] ⟨0x3000, 0x3000, 9⟩ = [(0x42, 1)] :=
  addRange_degenerate [(0x42, 1)] ⟨0x3000, 0x3000, 9⟩ rfl

/-- C6: every emitted file record consists of its `SF:`/`DA:` text
followed by `LH:` equal to the number of lines with non-zero count and
`LF:` equal to the total number of lines of the entry's table. -/
theorem emitRecord_lh_lf (path : String) (li : List (Nat × Nat)) :
    emitRecord path li
      = sfDaText path li
        ++ "LH:" ++ toString (li.countP (fun p => p.2 != 0)) ++ "\n"
        ++ "LF:" ++ toString li.length ++ "\n"
        ++ "end_of_record" ++ "\n" :=
  emitRecord_lh_lf_aux path li

/-- C7: a non-Windows-style path missing on disk produces no record at
all — the serialized report equals the report of the table without that
entry, every other entry emitted as before. -/
theorem save_coverage_info_skips_missing (fs : FS) (pre post : LineCountTable)
    (p : String) (li : List (Nat × Nat))
    (h1 : hasBackslash p = false)
    (h2 : fs.isFile (fs.realpath p) = false) :
    fileRecord fs p li = none ∧
      save_coverage_info fs (pre ++ (p, li) :: post)
        = save_coverage_info fs (pre ++ post) := by
  have hrec : fileRecord fs p li = none := by
    simp [fileRecord, h1, h2]
  refine ⟨hrec, ?_⟩
  unfold save_coverage_info
  rw [List.foldl_append, List.foldl_append, List.foldl_cons]
  have hstep : saveStep fs (pre.foldl (saveStep fs) ("TN:" ++ "\n")) (p, li)
      = pre.foldl (saveStep fs) ("TN:" ++ "\n") := by
    unfold saveStep
    rw [hrec]
  rw [hstep]

/-- Witness for C7: the missing file `a.c` is dropped while the Windows
path entry is still emitted. -/
theorem save_coverage_info_skips_missing_witness :
    fileRecord fsNone "a.c" [(1, 2)] = none ∧
      save_coverage_info fsNone [("C:\\w.c", [(3, 1)]), ("a.c", [(1, 2)])]
        = save_coverage_info fsNone [("C:\\w.c", [(3, 1)])] :=
  save_coverage_info_skips_missing fsNone [("C:\\w.c", [(3, 1)])] [] "a.c" [(1, 2)]
    (by decide) rfl

/-- C8: a Windows-style path (containing a back-slash) is emitted
untouched and its record never depends on the filesystem; any other path
is passed through `realpath`, then emitted exactly when the resolved
path is a file. -/
theorem fileRecord_path_normalization (fs fs' : FS) (p : String)
    (li : List (Nat × Nat)) :
    (hasBackslash p = true →
        fileRecord fs p li = some (emitRecord p li) ∧
          fileRecord fs p li = fileRecord fs' p li) ∧
      (hasBackslash p = false →
        fileRecord fs p li
          = if fs.isFile (fs.realpath p) then some (emitRecord (fs.realpath p) li)
            else none) := by
  constructor
  · intro h
    constructor <;> simp [fileRecord, h]
  · intro h
    simp [fileRecord, h]

/-- Witness for C8: a Windows path is independent of the filesystem and
kept verbatim; a Unix path on an all-missing filesystem is dropped. -/
theorem fileRecord_path_normalization_witness :
    fileRecord fsNone "C:\\x.c" [] = some (emitRecord "C:\\x.c" []) ∧
      fileRecord fsNone "C:\\x.c" [] = fileRecord fsAll "C:\\x.c" [] ∧
      fileRecord fsNone "x.c" [(1, 1)] = none := by
  have hw := (fileRecord_path_normalization fsNone fsAll "C:\\x.c" []).1 (by decide)
  have hu := (fileRecord_path_normalization fsNone fsAll "x.c" [(1, 1)]).2 (by decide)
  refine ⟨hw.1, hw.2, ?_⟩
  rw [hu]
  rfl

/-- C9: serialization is deterministic — equal line tables against an
equal filesystem state give byte-identical report text. -/
theorem save_coverage_info_deterministic (fs₁ fs₂ : FS)
    (fli₁ fli₂ : LineCountTable) (hfs : fs₁ = fs₂) (hfli : fli₁ = fli₂) :
    save_coverage_info fs₁ fli₁ = save_coverage_info fs₂ fli₂ := by
  rw [hfs, hfli]

/-- Witness for C9 at a concrete table and filesystem. -/
theorem save_coverage_info_deterministic_witness :
    save_coverage_info fsAll [("a.c", [(1, 2)])]
      = save_coverage_info fsAll [("a.c", [(1, 2)])] :=
  save_coverage_info_deterministic fsAll fsAll
    [("a.c", [(1, 2)])] [("a.c", [(1, 2)])] rfl rfl

/-- C10 counterexample: a table whose only path is Windows-style (so
every non-Windows-style path in it is vacuously missing) is still fully
emitted — the report is not just the `TN:` header. -/
theorem save_coverage_info_c10_counterexample :
    hasBackslash "C:\\dir\\f.c" = true ∧
      save_coverage_info fsAll [("C:\\dir\\f.c", [(1, 0)])] ≠ "TN:" ++ "\n" := by
  constructor
  · decide
  · decide

/-- C10 (amended): serializing an empty table, or one whose every path
is non-Windows-style and missing on disk, succeeds and yields exactly
the `TN:` header line. -/
theorem save_coverage_info_only_header (fs : FS) (fli : LineCountTable)
    (h : ∀ e ∈ fli, hasBackslash e.1 = false ∧ fs.isFile (fs.realpath e.1) = false) :
    save_coverage_info fs fli = "TN:" ++ "\n" := by
  unfold save_coverage_info
  refine foldl_saveStep_skip fs fli _ (fun e he => ?_)
  have he1 := (h e he).1
  have he2 := (h e he).2
  simp [fileRecord, he1, he2]

/-- Witness for C10's amended statement: one missing Unix-style file. -/
theorem save_coverage_info_only_header_witness :
    save_coverage_info fsNone [("a.c", [(1, 0)])] = "TN:" ++ "\n" := by
  refine save_coverage_info_only_header fsNone [("a.c", [(1, 0)])] ?_
  intro e he
  have : e = ("a.c", [(1, 0)]) := by
    cases he with
    | head => rfl
    | tail _ h2 => cases h2
  subst this
  exact ⟨by decide, rfl⟩

end Lcov
